import Mathlib

/-!
Shallow embedding of the outline/beat segmentation and variable-abstraction
engine of the `pdy_youtube_research` repository (`src/outline_generator.py`
and `src/transcriber.py`), together with theorems checking the stated
properties of that code.

Modelling conventions:
* Python strings are `List Char` (sequences of Unicode scalar values).
* Python floats are `ℚ`: the embedded code only copies, adds, subtracts,
  multiplies, divides and compares time values, so exact rationals track
  the arithmetic; all claim instances use values that are exactly
  representable in binary floating point.
* Python regular expressions are compiled by hand into a small regex AST
  evaluated by an explicit fuelled backtracking matcher with the same
  priority semantics (leftmost match, first-alternative preference,
  greedy quantifiers) as CPython's `re` engine.
* The mutable state of an `OutlineGenerator` instance
  (`self.variable_counter`, `self.variables`) is an explicit record
  threaded through the functions; `datetime.now().isoformat()` becomes an
  explicit `now` argument of `generate`.
-/

namespace Pdy

/-- Python `str` modelled as a list of Unicode scalar values. -/
abbrev Str := List Char

/-- The decimal digit characters used by Python's integer formatting.
Only ever applied to arguments `< 10`. -/
def digChar : Nat → Char
  | 0 => '0' | 1 => '1' | 2 => '2' | 3 => '3' | 4 => '4'
  | 5 => '5' | 6 => '6' | 7 => '7' | 8 => '8' | _ => '9'

/-- Fuelled helper for `natDecimal` (structural recursion on the fuel so
that the kernel can evaluate it; the fuel `n + 1` always suffices). -/
def natDecimalAux : Nat → Nat → Str
  | 0, _ => []
  | fuel + 1, n =>
    if n < 10 then [digChar n]
    else natDecimalAux fuel (n / 10) ++ [digChar (n % 10)]

/-- Decimal rendering of a natural number, as produced by Python `str(n)`
for `n >= 0`. -/
def natDecimal (n : Nat) : Str := natDecimalAux (n + 1) n

/-- Decimal rendering of a Python `int` (`str(n)`), including the sign. -/
def intRepr (n : Int) : Str :=
  if n < 0 then '-' :: natDecimal n.natAbs else natDecimal n.natAbs

/-- Python `f"{n:0wd}"`: zero-pad the decimal rendering of `n` to width `w`
(zeros inserted after the sign, as CPython does). -/
def zpad (w : Nat) (n : Int) : Str :=
  let digits := natDecimal n.natAbs
  let sign : Str := if n < 0 then ['-'] else []
  sign ++ List.replicate (w - (sign.length + digits.length)) '0' ++ digits

/-- Python `x % m` on floats (sign of the divisor; here only used with
positive `m`): `x - m * floor (x / m)`. -/
def pyMod (x m : ℚ) : ℚ := x - m * ⌊x / m⌋

/-- `src/transcriber.py::TranscriptSegment`. The Python field `end` is
renamed `stop` (`end` is a Lean keyword). -/
structure TranscriptSegment where
  id : Int
  start : ℚ
  stop : ℚ
  text : Str
deriving DecidableEq

/-- The inner `format_time` helper of
`src/transcriber.py::TranscriptSegment.to_srt_entry`:
`HH:MM:SS,mmm` with comma separator and 3-digit milliseconds.
`int(seconds // 3600)` etc. all truncate non-negative values, which the
floor of the (non-negative) Python `%` result reproduces exactly. -/
def format_time (seconds : ℚ) : Str :=
  let hours : Int := ⌊seconds / 3600⌋
  let minutes : Int := ⌊pyMod seconds 3600 / 60⌋
  let secs : Int := ⌊pyMod seconds 60⌋
  let millis : Int := ⌊pyMod seconds 1 * 1000⌋
  zpad 2 hours ++ ':' :: zpad 2 minutes ++ ':' :: zpad 2 secs ++ ',' :: zpad 3 millis

/-- `src/transcriber.py::TranscriptSegment.to_srt_entry`. -/
def to_srt_entry (seg : TranscriptSegment) : Str :=
  intRepr seg.id ++ '\n' :: format_time seg.start
    ++ ' ' :: '-' :: '-' :: '>' :: ' ' :: format_time seg.stop
    ++ '\n' :: seg.text ++ ['\n']

/-! ### Generic string helpers (embedding Python `str` operations) -/

/-- The whitespace characters recognised by Python's `str.strip()` and the
regex class `\s` (restricted to the code points occurring in this code
base; includes the ideographic space). -/
def isPySpace (c : Char) : Bool :=
  c == ' ' || c == '\t' || c == '\n' || c == '\r' || c == '\x0b' ||
  c == '\x0c' || c == '　'

/-- Python `str.strip()`. -/
def stripStr (s : Str) : Str :=
  ((s.dropWhile isPySpace).reverse.dropWhile isPySpace).reverse

/-- Python `" ".join(texts)`. -/
def spaceJoin : List Str → Str
  | [] => []
  | [t] => t
  | t :: ts => t ++ ' ' :: spaceJoin ts

/-- Python `haystack.replace(old, new, 1)`: replace the first occurrence
of `old` only (the haystack is returned unchanged when `old` does not
occur). -/
def replaceFirst : Str → Str → Str → Str
  | [], old, new => if old = [] then new else []
  | c :: rest, old, new =>
    if old.isPrefixOf (c :: rest) then new ++ (c :: rest).drop old.length
    else c :: replaceFirst rest old new

/-- Python `pat in s` (substring containment). -/
def substrOccurs (pat s : Str) : Bool :=
  (List.range (s.length + 1)).any (fun i => pat.isPrefixOf (s.drop i))

/-! ### Regular expressions

The regex literals of `outline_generator.py` are compiled by hand into
this AST.  `matchC` is a continuation-passing backtracking matcher with
CPython `re` semantics: alternation prefers the left branch, quantifiers
are greedy, and the first (leftmost) overall match wins.  The fuel
argument is structural-recursion bookkeeping only; every call site
supplies enough fuel that it never runs out (each nesting level of the
pattern and each character consumed by a quantifier iteration costs at
most one unit). -/

inductive RE where
  | eps
  | cls (p : Char → Bool)
  | look (p : Option Char → Bool)
  | seq (a b : RE)
  | alt (a b : RE)
  | star (a : RE)

/-- Size of a regex AST, used to compute a sufficient fuel bound. -/
def reSize : RE → Nat
  | .eps => 1
  | .cls _ => 1
  | .look _ => 1
  | .seq a b => reSize a + reSize b + 1
  | .alt a b => reSize a + reSize b + 1
  | .star a => reSize a + 1

/-- Backtracking matcher.  `matchC fuel re s k` tries to match `re` at the
start of `s` and calls the continuation `k` on the remainder; the first
success (in CPython priority order) is returned.  A `star` iteration that
consumes no input is cut off, as in real backtracking engines. -/
def matchC : Nat → RE → Str → (Str → Option Str) → Option Str
  | 0, _, _, _ => none
  | fuel + 1, re, s, k =>
    match re with
    | .eps => k s
    | .look p => if p s.head? then k s else none
    | .cls p =>
      match s with
      | [] => none
      | c :: rest => if p c then k rest else none
    | .seq a b => matchC fuel a s (fun s2 => matchC fuel b s2 k)
    | .alt a b =>
      match matchC fuel a s k with
      | some r => some r
      | none => matchC fuel b s k
    | .star a =>
      match matchC fuel a s
          (fun s2 => if s2.length < s.length then matchC fuel (RE.star a) s2 k else none) with
      | some r => some r
      | none => k s

/-- Length (in characters) of the match of `re` at the start of `s`, if
any, i.e. the length of `m.group(0)` for an anchored CPython match. -/
def matchLen (re : RE) (s : Str) : Option Nat :=
  match matchC ((reSize re + 2) * (s.length + 2)) re s some with
  | some rem => some (s.length - rem.length)
  | none => none

/-- One step of `re.finditer`: scan left to right, at each position try an
anchored match (subject to the leading-context check `lead`, which embeds
a leading `\b`); on success record `group(0)` and resume right after it
(non-overlapping matches), otherwise advance one character. -/
def scanIter : Nat → (Option Char → Bool) → RE → Option Char → Str → List Str
  | 0, _, _, _, _ => []
  | fuel + 1, lead, re, prev, s =>
    match s with
    | [] => []
    | c :: rest =>
      match if lead prev then matchLen re s else none with
      | some (n + 1) =>
        (s.take (n + 1)) ::
          scanIter fuel lead re ((s.take (n + 1)).getLast? <|> prev) (s.drop (n + 1))
      | _ => scanIter fuel lead re (some c) rest

/-- All `m.group(0)` values of `re.finditer(pattern, s)`, in order.  (None
of the patterns in this code base can match the empty string, so the
zero-width-match special cases of CPython cannot arise.) -/
def findAllMatches (lead : Option Char → Bool) (re : RE) (s : Str) : List Str :=
  scanIter (s.length + 1) lead re none s

/-- Python `re.search(pattern, s)` viewed as a Boolean: `anchored` embeds
a leading `^` in the pattern (no `re.MULTILINE` is used in the source). -/
def reSearch (anchored : Bool) (re : RE) (s : Str) : Bool :=
  if anchored then (matchLen re s).isSome
  else (List.range (s.length + 1)).any (fun i => (matchLen re (s.drop i)).isSome)

/-! #### Pattern construction helpers -/

/-- A single literal character. -/
def rchar (c : Char) : RE := RE.cls (fun x => x == c)

/-- A case-insensitive literal character (`re.IGNORECASE`). -/
def ichar (c : Char) : RE := RE.cls (fun x => x.toLower == c.toLower)

/-- A literal string. -/
def rstr (s : String) : RE := (s.toList.map rchar).foldr RE.seq RE.eps

/-- A case-insensitive literal string. -/
def istr (s : String) : RE := (s.toList.map ichar).foldr RE.seq RE.eps

/-- `x|y|z` with CPython's left-to-right alternative preference. -/
def ralt : List RE → RE
  | [] => RE.cls (fun _ => false)
  | [r] => r
  | r :: rs => RE.alt r (ralt rs)

/-- `r+` (greedy). -/
def rplus (r : RE) : RE := RE.seq r (RE.star r)

/-- `r?` (greedy). -/
def ropt (r : RE) : RE := RE.alt r RE.eps

/-- `r{2,4}` (greedy): `r r (r (r)?)?`. -/
def rep2to4 (r : RE) : RE :=
  RE.seq r (RE.seq r (ropt (RE.seq r (ropt r))))

/-- `\d` (the inputs of interest only use ASCII digits). -/
def rdigit : RE := RE.cls Char.isDigit

/-- `\s`. -/
def rws : RE := RE.cls isPySpace

/-- `.` (any character but a newline; no `re.DOTALL` is used). -/
def rdot : RE := RE.cls (fun c => !(c == '\n'))

/-- The character class `[一-龯]` (CJK ideographs U+4E00 to U+9FAF). -/
def isKanji (c : Char) : Bool := 0x4E00 ≤ c.toNat && c.toNat ≤ 0x9FAF

/-- `[一-龯]`. -/
def rkanji : RE := RE.cls isKanji

/-- The word characters of the regex class `\w` (ASCII word characters
plus the kana and CJK ranges occurring in this code base's inputs). -/
def isWordChar (c : Char) : Bool :=
  c.isAlphanum || c == '_' ||
  (0x3040 ≤ c.toNat && c.toNat ≤ 0x30FF) || isKanji c

/-! ### Data model of `src/outline_generator.py` -/

/-- `SectionType` (a `str` Enum in the source). -/
inductive SectionType where
  | HOOK | PROBLEM | CLAIM | REASON | EXAMPLE | STEPS | PROOF | SUMMARY
  | CTA | TRANSITION | OTHER
deriving DecidableEq

/-- `Variable`: a variable placeholder in the script. -/
structure Variable where
  name : Str
  original_value : Str
  category : Str
  section_index : Nat
deriving DecidableEq

/-- `Beat`: a 15-30 second unit of content with timecodes (`end` renamed
`stop`). -/
structure Beat where
  id : Nat
  start : ℚ
  stop : ℚ
  summary : Str
  template : Str
  original_text : Str
  vars : List Variable
deriving DecidableEq

/-- `OutlineSection` (`end` renamed `stop`). -/
structure OutlineSection where
  name : Str
  section_type : SectionType
  start : ℚ
  stop : ℚ
  summary : Str
  template : Str
  beats : List Beat
  vars : List Variable
  original_text : Str
deriving DecidableEq

/-- A value of the `metadata` dict of an `Outline` (string or int). -/
inductive MetaVal where
  | s (v : Str)
  | n (v : Nat)
deriving DecidableEq

/-- `Outline`: the complete generation result.  The `metadata` dict is an
ordered association list, as Python dicts preserve insertion order. -/
structure Outline where
  video_id : Str
  sections : List OutlineSection
  all_beats : List Beat
  all_variables : List Variable
  metadata : List (Str × MetaVal)
deriving DecidableEq

/-- The mutable per-run state of an `OutlineGenerator` instance:
`self.variable_counter` (a dict, modelled as an insertion-ordered
association list) and `self.variables`. -/
structure ExtState where
  variable_counter : List (Str × Nat)
  vars : List Variable
deriving DecidableEq

/-- Python `d.get(k)` on an association-list dict. -/
def dictGet (d : List (Str × Nat)) (k : Str) : Option Nat :=
  match d.find? (fun kv => kv.1 = k) with
  | some kv => some kv.2
  | none => none

/-- Python `d[k] = v` on an association-list dict (overwrite in place or
append). -/
def dictSet : List (Str × Nat) → Str → Nat → List (Str × Nat)
  | [], k, v => [(k, v)]
  | kv :: rest, k, v =>
    if kv.1 = k then (k, v) :: rest else kv :: dictSet rest k v

/-! ### The variable-extraction rule table (`VARIABLE_PATTERNS`) -/

/-- One entry of `OutlineGenerator.VARIABLE_PATTERNS`: the compiled
pattern (plus a leading-context check embedding a leading `\b`), the
category, and the placeholder template. -/
structure VarPattern where
  lead : Option Char → Bool
  re : RE
  category : Str
  template : Str

/-- No leading-context restriction (patterns without a leading `\b`). -/
def noLead : Option Char → Bool := fun _ => true

/-- `\b` as a leading-context check: start of string or a preceding
non-word character. -/
def wordBoundary : Option Char → Bool
  | none => true
  | some c => !(isWordChar c)

/-- `(\d+(?:,\d+)*(?:\.\d+)?)` — the numeric part of the first rule. -/
def numGroup : RE :=
  RE.seq (rplus rdigit)
    (RE.seq (RE.star (RE.seq (rchar ',') (rplus rdigit)))
      (ropt (RE.seq (rchar '.') (rplus rdigit))))

/-- The unit alternation of the first rule, in source order. -/
def unitAlt : RE :=
  ralt [rstr "円", rstr "ドル", rstr "万", rstr "億", rstr "%",
    rstr "パーセント", rstr "人", rstr "回", rstr "日", rstr "週間",
    rstr "ヶ月", rstr "年", rstr "kg", rstr "km", rstr "m", rstr "個",
    rstr "本", rstr "件"]

/-- `OutlineGenerator.VARIABLE_PATTERNS`, in source order.  The
`_extract_variables` searches are performed without `re.IGNORECASE`. -/
def VARIABLE_PATTERNS : List VarPattern :=
  [ -- (\d+(?:,\d+)*(?:\.\d+)?)\s*(unit)
    ⟨noLead, RE.seq numGroup (RE.seq (RE.star rws) unitAlt),
      "number".toList, "{NUMBER}".toList⟩,
    -- (20\d{2}年|19\d{2}年)
    ⟨noLead,
      ralt [RE.seq (rstr "20") (RE.seq rdigit (RE.seq rdigit (rstr "年"))),
        RE.seq (rstr "19") (RE.seq rdigit (RE.seq rdigit (rstr "年")))],
      "number".toList, "{YEAR}".toList⟩,
    -- ([一-龯]{2,4})(さん|氏|先生|社長|さま)
    ⟨noLead,
      RE.seq (rep2to4 rkanji)
        (ralt [rstr "さん", rstr "氏", rstr "先生", rstr "社長", rstr "さま"]),
      "who".toList, "{WHO}".toList⟩,
    -- (株式会社[一-龯a-zA-Z]+|[一-龯a-zA-Z]+株式会社)
    ⟨noLead,
      ralt [RE.seq (rstr "株式会社") (rplus (RE.cls (fun c => isKanji c || c.isAlpha))),
        RE.seq (rplus (RE.cls (fun c => isKanji c || c.isAlpha))) (rstr "株式会社")],
      "brand".toList, "{BRAND}".toList⟩,
    -- 「([^」]+)」
    ⟨noLead,
      RE.seq (rchar '「') (RE.seq (rplus (RE.cls (fun c => !(c == '」')))) (rchar '」')),
      "brand".toList, "{PRODUCT}".toList⟩,
    -- (東京|大阪|名古屋|福岡|北海道|沖縄|[一-龯]{2,4}県|[一-龯]{2,4}市)
    ⟨noLead,
      ralt [rstr "東京", rstr "大阪", rstr "名古屋", rstr "福岡",
        rstr "北海道", rstr "沖縄", RE.seq (rep2to4 rkanji) (rchar '県'),
        RE.seq (rep2to4 rkanji) (rchar '市')],
      "place".toList, "{PLACE}".toList⟩,
    -- \b([A-Z][a-z]+(?:\s+[A-Z][a-z]+)+)\b
    ⟨wordBoundary,
      RE.seq (RE.cls (fun c => 'A' ≤ c && c ≤ 'Z'))
        (RE.seq (rplus (RE.cls (fun c => 'a' ≤ c && c ≤ 'z')))
          (RE.seq (rplus (RE.seq (rplus rws)
              (RE.seq (RE.cls (fun c => 'A' ≤ c && c ≤ 'Z'))
                (rplus (RE.cls (fun c => 'a' ≤ c && c ≤ 'z'))))))
            (RE.look wordBoundary))),
      "who".toList, "{WHO}".toList⟩,
    -- (ステップ\d+|第\d+に|まず|次に|最後に|\d+つ目)
    ⟨noLead,
      ralt [RE.seq (rstr "ステップ") (rplus rdigit),
        RE.seq (rstr "第") (RE.seq (rplus rdigit) (rstr "に")),
        rstr "まず", rstr "次に", rstr "最後に",
        RE.seq (rplus rdigit) (rstr "つ目")],
      "steps".toList, "{STEP}".toList⟩ ]

/-! ### `OutlineGenerator._get_next_variable_name` and
`OutlineGenerator._extract_variables` -/

/-- `OutlineGenerator._get_next_variable_name`: bump the per-template
counter and return the bare template for the first use, `template_N`
afterwards. -/
def get_next_variable_name (counter : List (Str × Nat)) (base_name : Str) :
    Str × List (Str × Nat) :=
  let c0 := (dictGet counter base_name).getD 0
  let count := c0 + 1
  let counter' := dictSet counter base_name count
  (if count = 1 then base_name else base_name ++ '_' :: natDecimal count, counter')

/-- The inner `for match in matches` loop of `_extract_variables`:
for each `group(0)` value, draw a fresh name, record the `Variable` both
locally and on `self.variables`, and substitute the first remaining
occurrence of the literal in the working abstracted text. -/
def extractMatches (category var_template : Str) (section_index : Nat) :
    ExtState → Str → List Variable → List Str → (Str × List Variable) × ExtState
  | st, abstracted, vars, [] => ((abstracted, vars), st)
  | st, abstracted, vars, original_value :: ms =>
    let (var_name, counter') := get_next_variable_name st.variable_counter var_template
    let var : Variable := ⟨var_name, original_value, category, section_index⟩
    extractMatches category var_template section_index
      ⟨counter', st.vars ++ [var]⟩
      (replaceFirst abstracted original_value var_name)
      (vars ++ [var]) ms

/-- The outer `for pattern, category, var_template in VARIABLE_PATTERNS`
loop of `_extract_variables`; each rule's matches are found on the
*original* text. -/
def extractPatterns (text : Str) (section_index : Nat) :
    ExtState → Str → List Variable → List VarPattern → (Str × List Variable) × ExtState
  | st, abstracted, vars, [] => ((abstracted, vars), st)
  | st, abstracted, vars, p :: ps =>
    let r := extractMatches p.category p.template section_index st abstracted vars
      (findAllMatches p.lead p.re text)
    extractPatterns text section_index r.2 r.1.1 r.1.2 ps

/-- `OutlineGenerator._extract_variables`. -/
def extract_variables (st : ExtState) (text : Str) (section_index : Nat) :
    (Str × List Variable) × ExtState :=
  extractPatterns text section_index st text [] VARIABLE_PATTERNS

/-! ### `OutlineGenerator.SECTION_PATTERNS` and `_detect_section_type` -/

/-- `OutlineGenerator.SECTION_PATTERNS`, in source (dict-insertion) order.
Each pattern carries an `anchored` flag embedding a leading `^`; all
searches use `re.IGNORECASE` (hence `istr`/`ichar`). -/
def SECTION_PATTERNS : List (SectionType × List (Bool × RE)) :=
  [ (SectionType.HOOK,
      [ (true, ralt [istr "皆さん", istr "みなさん", istr "こんにちは",
          istr "今日は", istr "ねえ", istr "ちょっと待って"]),
        (false, ralt [istr "知ってました?", istr "信じられない", istr "衝撃",
          istr "驚き", istr "実は"]),
        (true, ralt [istr "Hey", istr "Hi", istr "Hello",
          istr "Did you know", istr "What if"]) ]),
    (SectionType.PROBLEM,
      [ (false, ralt [istr "困って", istr "悩んで", istr "問題", istr "課題",
          istr "大変", istr "辛い", istr "苦しい"]),
        (false, ralt [RE.seq (istr "なぜ") (RE.seq (rplus rdot) (istr "できない")),
          RE.seq (istr "どうして") (RE.seq (rplus rdot) (istr "ない"))]),
        (false, ralt [istr "struggle", istr "problem", istr "issue",
          istr "challenge", istr "difficult"]) ]),
    (SectionType.CLAIM,
      [ (false, ralt [istr "実は", istr "実際", istr "本当は", istr "秘密",
          istr "コツ", istr "方法"]),
        (false, ralt [istr "解決", istr "答え", istr "ポイント", istr "鍵"]),
        (false, ralt [istr "the secret", istr "the key", istr "the answer",
          istr "actually", istr "in fact"]) ]),
    (SectionType.REASON,
      [ (false, ralt [istr "なぜなら", istr "理由", istr "だから",
          istr "というのも"]),
        (false, ralt [istr "because", istr "reason", istr "that\x27s why",
          istr "since"]) ]),
    (SectionType.STEPS,
      [ (false, ralt [istr "ステップ", istr "手順", istr "やり方", istr "方法"]),
        (false, ralt [istr "まず", istr "次に", istr "そして", istr "最後に"]),
        (false, ralt [istr "step", istr "first", istr "then", istr "next",
          istr "finally"]) ]),
    (SectionType.PROOF,
      [ (false, ralt [istr "証拠", istr "データ", istr "結果", istr "実績",
          istr "成果"]),
        (false, ralt [istr "research", istr "study", istr "data",
          istr "results", istr "proof"]) ]),
    (SectionType.EXAMPLE,
      [ (false, ralt [istr "例えば", istr "たとえば", istr "具体的に",
          istr "実際に"]),
        (false, ralt [istr "私の場合", istr "私は", istr "僕は", istr "経験"]),
        (false, ralt [istr "for example", istr "for instance",
          istr "in my case", istr "I personally"]) ]),
    (SectionType.SUMMARY,
      [ (false, ralt [istr "まとめ", istr "要約", istr "結論", istr "つまり",
          istr "要するに"]),
        (false, ralt [istr "in summary", istr "to summarize",
          istr "in conclusion", istr "so basically"]) ]),
    (SectionType.CTA,
      [ (false, ralt [istr "チャンネル登録", istr "いいね", istr "コメント",
          istr "シェア", istr "フォロー"]),
        (false, ralt [istr "リンク", istr "概要欄", istr "説明欄", istr "詳細"]),
        (false, ralt [istr "subscribe", istr "like", istr "comment",
          istr "share", istr "follow", istr "link", istr "description"]) ]) ]

/-- `OutlineGenerator._detect_section_type`: the first category (in table
order) any of whose patterns matches wins; `OTHER` if none matches. -/
def detect_section_type (text : Str) : SectionType :=
  match SECTION_PATTERNS.find? (fun p => p.2.any (fun q => reSearch q.1 q.2 text)) with
  | some p => p.1
  | none => SectionType.OTHER

/-! ### `OutlineGenerator._create_summary` and beat segmentation -/

/-- Python `s.rsplit(" ", 1)[0]`: everything before the last space, or the
whole string when it contains no space. -/
def rsplitHead (s : Str) : Str :=
  match (s.reverse.takeWhile (fun c => !(c == ' '))).length, s.reverse.any (fun c => c == ' ') with
  | n, true => s.take (s.length - n - 1)
  | _, false => s

/-- `OutlineGenerator._create_summary` (the Python default
`max_length=80` is passed explicitly at call sites). -/
def create_summary (text : Str) (max_length : Nat) : Str :=
  let text := stripStr text
  if text.length ≤ max_length then text
  else rsplitHead (text.take max_length) ++ '.' :: '.' :: ['.']

/-- `OutlineGenerator._calculate_beat_durations`. -/
def calculate_beat_durations (total_duration : ℚ) (min_beats : Nat)
    (target_min target_max : ℚ) : ℚ × ℚ :=
  if total_duration ≤ 0 then (target_min, target_max)
  else
    let max_possible_beats := total_duration / target_min
    if (min_beats : ℚ) ≤ max_possible_beats then (target_min, target_max)
    else
      let adjusted_max := total_duration / (min_beats : ℚ)
      let adjusted_min := adjusted_max * 0.5
      let adjusted_min := max 3.0 adjusted_min
      let adjusted_max := max 5.0 adjusted_max
      (adjusted_min, adjusted_max)

/-- `text.endswith("。") or ... or text.endswith("!")` in
`_generate_beats`: sentence-terminal punctuation test. -/
def endsSentence (t : Str) : Bool :=
  match t.getLast? with
  | some c => ['。', '.', '？', '?', '！', '!'].contains c
  | none => false

/-- Python `segments[-1].end` (only ever evaluated on non-empty lists). -/
def lastStop (segments : List TranscriptSegment) : ℚ :=
  match segments.getLast? with
  | some s => s.stop
  | none => 0

/-- The `for seg in segments` loop of `OutlineGenerator._generate_beats`
(with its trailing `if current_texts:` flush), as a recursion over the
remaining segments.  State: the extractor state, the next `beat_id`, and
the loop variables `current_start`, `current_texts`, `current_end`. -/
def genLoop (actual_min actual_max : ℚ) :
    ExtState → Nat → ℚ → List Str → ℚ → List TranscriptSegment →
    List Beat × ExtState
  | st, beat_id, current_start, current_texts, current_end, [] =>
    if current_texts ≠ [] then
      let text := spaceJoin current_texts
      let r := extract_variables st text (beat_id - 1)
      ([⟨beat_id, current_start, current_end, create_summary text 80,
          r.1.1, text, r.1.2⟩], r.2)
    else ([], st)
  | st, beat_id, current_start, current_texts, _, seg :: rest =>
    let current_texts := current_texts ++ [seg.text]
    let current_end := seg.stop
    let duration := current_end - current_start
    let should_create_beat :=
      actual_max ≤ duration ∨ (actual_min ≤ duration ∧ endsSentence seg.text)
    if should_create_beat ∧ current_texts ≠ [] then
      let text := spaceJoin current_texts
      let r := extract_variables st text (beat_id - 1)
      let beat : Beat := ⟨beat_id, current_start, current_end,
        create_summary text 80, r.1.1, text, r.1.2⟩
      let rec2 := genLoop actual_min actual_max r.2 (beat_id + 1) current_end [] current_end rest
      (beat :: rec2.1, rec2.2)
    else
      genLoop actual_min actual_max st beat_id current_start current_texts current_end rest

/-- The loop of `OutlineGenerator._force_split_into_beats` (with its
trailing flush); the close condition is only the accumulated duration reaching
`beat_duration`, with no sentence-boundary preference. -/
def forceLoop (beat_duration : ℚ) :
    ExtState → Nat → ℚ → List Str → ℚ → List TranscriptSegment →
    List Beat × ExtState
  | st, beat_id, current_start, current_texts, current_end, [] =>
    if current_texts ≠ [] then
      let text := spaceJoin current_texts
      let r := extract_variables st text (beat_id - 1)
      ([⟨beat_id, current_start, current_end, create_summary text 80,
          r.1.1, text, r.1.2⟩], r.2)
    else ([], st)
  | st, beat_id, current_start, current_texts, _, seg :: rest =>
    let current_texts := current_texts ++ [seg.text]
    let current_end := seg.stop
    if beat_duration ≤ current_end - current_start ∧ current_texts ≠ [] then
      let text := spaceJoin current_texts
      let r := extract_variables st text (beat_id - 1)
      let beat : Beat := ⟨beat_id, current_start, current_end,
        create_summary text 80, r.1.1, text, r.1.2⟩
      let rec2 := forceLoop beat_duration r.2 (beat_id + 1) current_end [] current_end rest
      (beat :: rec2.1, rec2.2)
    else
      forceLoop beat_duration st beat_id current_start current_texts current_end rest

/-- `OutlineGenerator._force_split_into_beats`. -/
def force_split_into_beats (st : ExtState) (segments : List TranscriptSegment)
    (target_beats : Nat) : List Beat × ExtState :=
  match segments with
  | [] => ([], st)
  | s0 :: _ =>
    let total_duration := lastStop segments - s0.start
    let beat_duration := total_duration / (target_beats : ℚ)
    forceLoop beat_duration st 1 s0.start [] s0.stop segments

/-- The normal (non-forced) portion of `OutlineGenerator._generate_beats`:
adaptive thresholds plus the greedy grouping loop. -/
def generate_beats_normal (st : ExtState) (segments : List TranscriptSegment)
    (min_beat_duration max_beat_duration : ℚ) (min_beats : Nat) :
    List Beat × ExtState :=
  match segments with
  | [] => ([], st)
  | s0 :: _ =>
    let total_duration := lastStop segments - s0.start
    let am := calculate_beat_durations total_duration min_beats
      min_beat_duration max_beat_duration
    genLoop am.1 am.2 st 1 s0.start [] s0.stop segments

/-- `OutlineGenerator._generate_beats`: the greedy pass followed by the
minimum-count fallback.  Note that the fallback re-runs extraction on the
*already mutated* extractor state (`self` is not reset), exactly as in
Python. -/
def generate_beats (st : ExtState) (segments : List TranscriptSegment)
    (min_beat_duration max_beat_duration : ℚ) (min_beats : Nat) :
    List Beat × ExtState :=
  match segments with
  | [] => ([], st)
  | _ :: _ =>
    let r := generate_beats_normal st segments min_beat_duration max_beat_duration min_beats
    if r.1.length < min_beats ∧ min_beats ≤ segments.length then
      force_split_into_beats r.2 segments min_beats
    else r

/-! ### Section aggregation (`_group_beats_into_sections`,
`_create_section_from_beats`) and `generate` -/

/-- `OutlineGenerator.SECTION_NAMES_JA` (covers every `SectionType`, so
the `"セクション N"` fallback of `_create_section_from_beats` is never
taken). -/
def SECTION_NAMES_JA : List (SectionType × Str) :=
  [ (SectionType.HOOK, "オープニング（フック）".toList),
    (SectionType.PROBLEM, "問題提起".toList),
    (SectionType.CLAIM, "主張・解決策".toList),
    (SectionType.REASON, "理由・根拠".toList),
    (SectionType.STEPS, "手順・ステップ".toList),
    (SectionType.PROOF, "証拠・実績".toList),
    (SectionType.EXAMPLE, "具体例・体験談".toList),
    (SectionType.SUMMARY, "まとめ".toList),
    (SectionType.CTA, "行動喚起（CTA）".toList),
    (SectionType.TRANSITION, "つなぎ".toList),
    (SectionType.OTHER, "その他".toList) ]

/-- `beats[0].start` / `beats[-1].end` of a beat list (only evaluated on
non-empty lists, where Python would raise `IndexError` otherwise). -/
def headBeatStart (beats : List Beat) : ℚ :=
  match beats.head? with
  | some b => b.start
  | none => 0

/-- `beats[-1].end` of a beat list (see `headBeatStart`). -/
def lastBeatStop (beats : List Beat) : ℚ :=
  match beats.getLast? with
  | some b => b.stop
  | none => 0

/-- `OutlineGenerator._create_section_from_beats`. -/
def create_section_from_beats (beats : List Beat) (section_type : SectionType)
    (index : Nat) : OutlineSection :=
  let all_text := spaceJoin (beats.map (fun b => b.original_text))
  let all_template := spaceJoin (beats.map (fun b => b.template))
  let all_vars := (beats.map (fun b => b.vars)).flatten
  { name :=
      match SECTION_NAMES_JA.find? (fun kv => kv.1 = section_type) with
      | some kv => kv.2
      | none => "セクション ".toList ++ natDecimal (index + 1)
    section_type := section_type
    start := headBeatStart beats
    stop := lastBeatStop beats
    summary := create_summary all_text 120
    template := all_template
    beats := beats
    vars := all_vars
    original_text := all_text }

/-- The positional fallback of `_group_beats_into_sections`, applied when
`_detect_section_type` returns `OTHER`: `i == 0` is a hook, the last two
beats are CTAs, the rest is bucketed by fractional position. -/
def positionalType (i allLen : Nat) : SectionType :=
  let position : ℚ := (i : ℚ) / (max allLen 1 : ℚ)
  if i = 0 then SectionType.HOOK
  else if (allLen : Int) - 2 ≤ (i : Int) then SectionType.CTA
  else if position < 0.2 then SectionType.PROBLEM
  else if position < 0.35 then SectionType.CLAIM
  else if position < 0.6 then SectionType.STEPS
  else if position < 0.8 then SectionType.PROOF
  else SectionType.SUMMARY

/-- The `for i, beat in enumerate(beats)` loop of
`_group_beats_into_sections` (with its trailing flush): merge consecutive
same-type beats into sections. -/
def groupLoop (allLen : Nat) :
    Nat → List Beat → List Beat → SectionType → List OutlineSection →
    List OutlineSection
  | _, [], current_beats, current_type, sections =>
    if current_beats ≠ [] then
      sections ++ [create_section_from_beats current_beats current_type sections.length]
    else sections
  | i, beat :: rest, current_beats, current_type, sections =>
    let detected_type := detect_section_type beat.original_text
    let detected_type :=
      if detected_type = SectionType.OTHER then positionalType i allLen
      else detected_type
    if current_beats ≠ [] ∧ detected_type ≠ current_type then
      let sec := create_section_from_beats current_beats current_type sections.length
      groupLoop allLen (i + 1) rest [beat] detected_type (sections ++ [sec])
    else
      groupLoop allLen (i + 1) rest (current_beats ++ [beat]) detected_type sections

/-- `OutlineGenerator._group_beats_into_sections`. -/
def group_beats_into_sections (beats : List Beat) : List OutlineSection :=
  if beats = [] then []
  else groupLoop beats.length 0 beats [] SectionType.OTHER []

/-- Round half to even (CPython's float formatting rounding mode),
applied to an exact rational. -/
def roundHalfEven (q : ℚ) : Int :=
  let f : Int := ⌊q⌋
  let r := q - f
  if r < 1 / 2 then f
  else if 1 / 2 < r then f + 1
  else if f % 2 = 0 then f else f + 1

/-- Python `f"{x:.1f}"` on the exact rational `x`. -/
def fmt1 (q : ℚ) : Str :=
  let m := roundHalfEven (q * 10)
  (if m < 0 then ['-'] else []) ++
    natDecimal (m.natAbs / 10) ++ '.' :: natDecimal (m.natAbs % 10)

/-- `OutlineGenerator.generate`.  The two generation parameters keep their
Python names; `min_beats` is the Python default `3` of
`_generate_beats`.  `now` is the value the call
`datetime.now().isoformat()` would return (the only impure expression of
the function). -/
def generate (segments : List TranscriptSegment) (video_id : Str)
    (min_beat_duration max_beat_duration : ℚ) (now : Str) : Outline :=
  if segments = [] then
    { video_id := video_id
      sections := []
      all_beats := []
      all_variables := []
      metadata := [("error".toList, MetaVal.s "No segments provided".toList)] }
  else
    let r := generate_beats ⟨[], []⟩ segments min_beat_duration max_beat_duration 3
    let sections := group_beats_into_sections r.1
    let total_duration := lastStop segments
    { video_id := video_id
      sections := sections
      all_beats := r.1
      all_variables := r.2.vars
      metadata :=
        [ ("total_duration".toList, MetaVal.s (fmt1 total_duration ++ "秒".toList)),
          ("beat_count".toList, MetaVal.n r.1.length),
          ("section_count".toList, MetaVal.n sections.length),
          ("variable_count".toList, MetaVal.n r.2.vars.length),
          ("generated_at".toList, MetaVal.s now) ] }

/-! ## Loop invariants of the beat segmenter -/

/-- The `end` value the remaining loop run will give the final beat: the
last remaining segment's `end`, or the current `current_end` when no
segment remains (the flush case). -/
def lastStopD (rest : List TranscriptSegment) (ce : ℚ) : ℚ :=
  match rest.getLast? with
  | some sg => sg.stop
  | none => ce

theorem lastStopD_cons (seg : TranscriptSegment) (rest : List TranscriptSegment)
    (ce : ℚ) : lastStopD (seg :: rest) ce = lastStopD rest seg.stop := by
  cases rest with
  | nil => rfl
  | cons a l =>
    unfold lastStopD
    rw [List.getLast?_cons_cons]
    rcases hx : (a :: l).getLast? with _ | sg
    · simp at hx
    · rfl

/-- The partition shape of a beat list produced from `current_start = cs`:
non-empty, starts at `cs`, adjacent beats share their boundary, and ends
at `stopv`. -/
def beatChainP (cs stopv : ℚ) (bs : List Beat) : Prop :=
  bs ≠ [] ∧
  bs.head?.map Beat.start = some cs ∧
  List.Chain' (fun a b => a.stop = b.start) bs ∧
  bs.getLast?.map Beat.stop = some stopv

theorem beatChainP_cons (b : Beat) (bs : List Beat) (cs stopv : ℚ)
    (hval : b.start = cs) (hbs : beatChainP b.stop stopv bs) :
    beatChainP cs stopv (b :: bs) := by
  obtain ⟨hne, hhead, hchain, hlast⟩ := hbs
  obtain ⟨b2, bs2, rfl⟩ := List.exists_cons_of_ne_nil hne
  refine ⟨by simp, by simp [hval], ?_, ?_⟩
  · exact List.chain'_cons.mpr ⟨by simpa using hhead.symm, hchain⟩
  · simpa [List.getLast?_cons_cons] using hlast

theorem beatChainP_singleton (b : Beat) (cs stopv : ℚ)
    (h1 : b.start = cs) (h2 : b.stop = stopv) :
    beatChainP cs stopv [b] := by
  refine ⟨by simp, by simp [h1], List.chain'_singleton b, by simp [h2]⟩

/-- Loop invariant of the greedy pass of `_generate_beats`: whenever the
pending text or the remaining segment list is non-empty, the produced
beat list partitions `[current_start, lastStopD rest current_end]`. -/
theorem genLoop_partition (amin amax : ℚ) (rest : List TranscriptSegment) :
    ∀ (st : ExtState) (bid : Nat) (cs : ℚ) (texts : List Str) (ce : ℚ),
      texts ≠ [] ∨ rest ≠ [] →
      beatChainP cs (lastStopD rest ce) (genLoop amin amax st bid cs texts ce rest).1 := by
  induction rest with
  | nil =>
    intro st bid cs texts ce h
    have ht : texts ≠ [] := h.resolve_right (fun hr => hr rfl)
    simp only [genLoop, if_pos ht]
    exact beatChainP_singleton _ _ _ rfl rfl
  | cons seg rest ih =>
    intro st bid cs texts ce h
    rw [lastStopD_cons]
    simp only [genLoop]
    split
    · -- a beat is emitted
      rcases eq_or_ne rest [] with hrest | hrest
      · subst hrest
        simp only [genLoop, ne_eq, not_true_eq_false, if_neg (fun hx : ¬(([] : List Str) = []) => hx rfl)]
        exact beatChainP_singleton _ _ _ rfl rfl
      · exact beatChainP_cons _ _ _ _ rfl (ih _ _ _ _ _ (Or.inr hrest))
    · -- no beat is emitted yet
      exact ih _ _ _ _ _ (Or.inl (by simp))

/-- Loop invariant of the forced equal-duration pass
(`_force_split_into_beats`), identical in shape to `genLoop_partition`. -/
theorem forceLoop_partition (bd : ℚ) (rest : List TranscriptSegment) :
    ∀ (st : ExtState) (bid : Nat) (cs : ℚ) (texts : List Str) (ce : ℚ),
      texts ≠ [] ∨ rest ≠ [] →
      beatChainP cs (lastStopD rest ce) (forceLoop bd st bid cs texts ce rest).1 := by
  induction rest with
  | nil =>
    intro st bid cs texts ce h
    have ht : texts ≠ [] := h.resolve_right (fun hr => hr rfl)
    simp only [forceLoop, if_pos ht]
    exact beatChainP_singleton _ _ _ rfl rfl
  | cons seg rest ih =>
    intro st bid cs texts ce h
    rw [lastStopD_cons]
    simp only [forceLoop]
    split
    · rcases eq_or_ne rest [] with hrest | hrest
      · subst hrest
        simp only [forceLoop, ne_eq, not_true_eq_false, if_neg (fun hx : ¬(([] : List Str) = []) => hx rfl)]
        exact beatChainP_singleton _ _ _ rfl rfl
      · exact beatChainP_cons _ _ _ _ rfl (ih _ _ _ _ _ (Or.inr hrest))
    · exact ih _ _ _ _ _ (Or.inl (by simp))

/-- The partition property of a produced beat list with respect to the
input segment list. -/
def beatsPartitionSegs (bs : List Beat) (segments : List TranscriptSegment) : Prop :=
  bs ≠ [] ∧
  bs.head?.map Beat.start = segments.head?.map TranscriptSegment.start ∧
  List.Chain' (fun a b => a.stop = b.start) bs ∧
  bs.getLast?.map Beat.stop = segments.getLast?.map TranscriptSegment.stop

theorem lastStopD_of_ne_nil (segs : List TranscriptSegment) (ce : ℚ)
    (h : segs ≠ []) :
    some (lastStopD segs ce) = segs.getLast?.map TranscriptSegment.stop := by
  unfold lastStopD
  rcases hx : segs.getLast? with _ | sg
  · exact absurd (by simpa using hx) h
  · rfl

theorem beatChainP_partitionSegs (bs : List Beat) (s0 : TranscriptSegment)
    (rest : List TranscriptSegment) (ce : ℚ)
    (h : beatChainP s0.start (lastStopD (s0 :: rest) ce) bs) :
    beatsPartitionSegs bs (s0 :: rest) := by
  obtain ⟨h1, h2, h3, h4⟩ := h
  refine ⟨h1, by simpa using h2, h3, ?_⟩
  rw [h4]
  exact lastStopD_of_ne_nil (s0 :: rest) ce (by simp)

/-- Every group non-empty forces at least as many flattened elements as
groups. -/
theorem length_le_flatten_length (groups : List (List Str))
    (h : ∀ g ∈ groups, g ≠ []) : groups.length ≤ groups.flatten.length := by
  induction groups with
  | nil => simp
  | cons g gs ih =>
    have hg : g ≠ [] := h g (by simp)
    have hlen : 1 ≤ g.length := List.length_pos.mpr hg
    have := ih (fun x hx => h x (by simp [hx]))
    simp only [List.flatten_cons, List.length_cons, List.length_append]
    omega

/-- The grouping shape of a beat list: the texts of the produced beats are
the space-joins of a partition of the pending texts plus the remaining
segment texts into non-empty consecutive groups. -/
def beatsGroupedP (texts : List Str) (segTexts : List Str) (bs : List Beat) : Prop :=
  ∃ groups : List (List Str),
    groups.flatten = texts ++ segTexts ∧
    (∀ g ∈ groups, g ≠ []) ∧
    bs.map Beat.original_text = groups.map spaceJoin

/-- Loop invariant of the greedy pass: its beats consume the pending
texts plus the remaining segment texts as non-empty consecutive runs. -/
theorem genLoop_groups (amin amax : ℚ) (rest : List TranscriptSegment) :
    ∀ (st : ExtState) (bid : Nat) (cs : ℚ) (texts : List Str) (ce : ℚ),
      beatsGroupedP texts (rest.map TranscriptSegment.text)
        (genLoop amin amax st bid cs texts ce rest).1 := by
  induction rest with
  | nil =>
    intro st bid cs texts ce
    by_cases ht : texts = []
    · subst ht
      simp only [genLoop, ne_eq, not_true_eq_false]
      exact ⟨[], by simp, by simp, by simp⟩
    · simp only [genLoop, if_pos ht]
      exact ⟨[texts], by simp, by simp [ht], by simp⟩
  | cons seg rest ih =>
    intro st bid cs texts ce
    simp only [genLoop]
    split
    · obtain ⟨groups, h1, h2, h3⟩ :=
        ih ((extract_variables st (spaceJoin (texts ++ [seg.text])) (bid - 1)).2)
          (bid + 1) seg.stop [] seg.stop
      refine ⟨(texts ++ [seg.text]) :: groups, ?_, ?_, ?_⟩
      · simp only [List.flatten_cons, h1, List.nil_append, List.map_cons]
        simp
      · intro g hg
        rcases List.mem_cons.mp hg with hg | hg
        · subst hg; simp
        · exact h2 g hg
      · simp only [List.map_cons, h3]
    · obtain ⟨groups, h1, h2, h3⟩ := ih st bid cs (texts ++ [seg.text]) seg.stop
      refine ⟨groups, ?_, h2, h3⟩
      simp only [h1, List.map_cons]
      simp

/-- Loop invariant of the forced-split pass, identical in shape to
`genLoop_groups`. -/
theorem forceLoop_groups (bd : ℚ) (rest : List TranscriptSegment) :
    ∀ (st : ExtState) (bid : Nat) (cs : ℚ) (texts : List Str) (ce : ℚ),
      beatsGroupedP texts (rest.map TranscriptSegment.text)
        (forceLoop bd st bid cs texts ce rest).1 := by
  induction rest with
  | nil =>
    intro st bid cs texts ce
    by_cases ht : texts = []
    · subst ht
      simp only [forceLoop, ne_eq, not_true_eq_false]
      exact ⟨[], by simp, by simp, by simp⟩
    · simp only [forceLoop, if_pos ht]
      exact ⟨[texts], by simp, by simp [ht], by simp⟩
  | cons seg rest ih =>
    intro st bid cs texts ce
    simp only [forceLoop]
    split
    · obtain ⟨groups, h1, h2, h3⟩ :=
        ih ((extract_variables st (spaceJoin (texts ++ [seg.text])) (bid - 1)).2)
          (bid + 1) seg.stop [] seg.stop
      refine ⟨(texts ++ [seg.text]) :: groups, ?_, ?_, ?_⟩
      · simp only [List.flatten_cons, h1, List.nil_append, List.map_cons]
        simp
      · intro g hg
        rcases List.mem_cons.mp hg with hg | hg
        · subst hg; simp
        · exact h2 g hg
      · simp only [List.map_cons, h3]
    · obtain ⟨groups, h1, h2, h3⟩ := ih st bid cs (texts ++ [seg.text]) seg.stop
      refine ⟨groups, ?_, h2, h3⟩
      simp only [h1, List.map_cons]
      simp

/-- A grouped beat list has at most as many beats as segment texts. -/
theorem beats_le_of_grouped {bs : List Beat} {segTexts : List Str}
    (h : beatsGroupedP [] segTexts bs) : bs.length ≤ segTexts.length := by
  obtain ⟨groups, h1, h2, h3⟩ := h
  have hb : bs.length = groups.length := by
    simpa using congrArg List.length h3
  have hf : groups.flatten.length = segTexts.length := by
    simp [h1]
  have := length_le_flatten_length groups h2
  omega

/-- `rsplit(" ", 1)[0]` never lengthens a string. -/
theorem rsplitHead_length_le (s : Str) : (rsplitHead s).length ≤ s.length := by
  unfold rsplitHead
  split
  · simp [List.length_take]
  · exact le_refl _

/-- `_create_summary` always returns at most `max_length + 3`
characters. -/
theorem create_summary_length_le (text : Str) (max_length : Nat) :
    (create_summary text max_length).length ≤ max_length + 3 := by
  simp only [create_summary]
  split
  · omega
  · rename_i hlen
    have h1 : ((stripStr text).take max_length).length = max_length := by
      simp only [List.length_take]
      omega
    have h2 := rsplitHead_length_le ((stripStr text).take max_length)
    simp only [List.length_append, List.length_cons, List.length_nil]
    omega

/-- Every beat the greedy loop emits carries a summary produced by
`create_summary _ 80`, hence of at most 83 characters. -/
theorem genLoop_summary_le (amin amax : ℚ) (rest : List TranscriptSegment) :
    ∀ (st : ExtState) (bid : Nat) (cs : ℚ) (texts : List Str) (ce : ℚ),
      ∀ b ∈ (genLoop amin amax st bid cs texts ce rest).1,
        b.summary.length ≤ 83 := by
  induction rest with
  | nil =>
    intro st bid cs texts ce b hb
    by_cases ht : texts = []
    · subst ht
      simp only [genLoop, ne_eq, not_true_eq_false, if_neg (fun hx : ¬(([] : List Str) = []) => hx rfl)] at hb
      simp at hb
    · simp only [genLoop, if_pos ht] at hb
      rcases List.mem_singleton.mp hb with rfl
      exact create_summary_length_le _ 80
  | cons seg rest ih =>
    intro st bid cs texts ce b hb
    simp only [genLoop] at hb
    revert hb
    split
    · intro hb
      rcases List.mem_cons.mp hb with rfl | hb
      · exact create_summary_length_le _ 80
      · exact ih _ _ _ _ _ b hb
    · intro hb
      exact ih _ _ _ _ _ b hb

/-- As `genLoop_summary_le`, for the forced-split loop. -/
theorem forceLoop_summary_le (bd : ℚ) (rest : List TranscriptSegment) :
    ∀ (st : ExtState) (bid : Nat) (cs : ℚ) (texts : List Str) (ce : ℚ),
      ∀ b ∈ (forceLoop bd st bid cs texts ce rest).1,
        b.summary.length ≤ 83 := by
  induction rest with
  | nil =>
    intro st bid cs texts ce b hb
    by_cases ht : texts = []
    · subst ht
      simp only [forceLoop, ne_eq, not_true_eq_false, if_neg (fun hx : ¬(([] : List Str) = []) => hx rfl)] at hb
      simp at hb
    · simp only [forceLoop, if_pos ht] at hb
      rcases List.mem_singleton.mp hb with rfl
      exact create_summary_length_le _ 80
  | cons seg rest ih =>
    intro st bid cs texts ce b hb
    simp only [forceLoop] at hb
    revert hb
    split
    · intro hb
      rcases List.mem_cons.mp hb with rfl | hb
      · exact create_summary_length_le _ 80
      · exact ih _ _ _ _ _ b hb
    · intro hb
      exact ih _ _ _ _ _ b hb

/-- Summary bound for the `_generate_beats` dispatch. -/
theorem generate_beats_summary_le (st : ExtState)
    (segments : List TranscriptSegment) (mind maxd : ℚ) (min_beats : Nat) :
    ∀ b ∈ (generate_beats st segments mind maxd min_beats).1,
      b.summary.length ≤ 83 := by
  cases segments with
  | nil => simp [generate_beats]
  | cons s0 rest =>
    intro b hb
    simp only [generate_beats] at hb
    revert hb
    split
    · intro hb
      simp only [force_split_into_beats] at hb
      exact forceLoop_summary_le _ _ _ _ _ _ _ b hb
    · intro hb
      simp only [generate_beats_normal] at hb
      exact genLoop_summary_le _ _ _ _ _ _ _ _ b hb

/-- Every section the grouping loop emits carries a summary produced by
`create_summary _ 120`, hence of at most 123 characters. -/
theorem groupLoop_summary_le (allLen : Nat) (rest : List Beat) :
    ∀ (i : Nat) (cur : List Beat) (curType : SectionType)
      (sections : List OutlineSection),
      (∀ s ∈ sections, s.summary.length ≤ 123) →
      ∀ s ∈ groupLoop allLen i rest cur curType sections,
        s.summary.length ≤ 123 := by
  induction rest with
  | nil =>
    intro i cur curType sections hsec s hs
    simp only [groupLoop] at hs
    revert hs
    split
    · intro hs
      rcases List.mem_append.mp hs with hs | hs
      · exact hsec s hs
      · rcases List.mem_singleton.mp hs with rfl
        exact create_summary_length_le _ 120
    · intro hs
      exact hsec s hs
  | cons beat rest ih =>
    intro i cur curType sections hsec s hs
    simp only [groupLoop] at hs
    revert hs
    split
    · split
      · intro hs
        refine ih _ _ _ _ ?_ s hs
        intro s2 hs2
        rcases List.mem_append.mp hs2 with hs2 | hs2
        · exact hsec s2 hs2
        · rcases List.mem_singleton.mp hs2 with rfl
          exact create_summary_length_le _ 120
      · intro hs
        exact ih _ _ _ _ hsec s hs
    · split
      · intro hs
        refine ih _ _ _ _ ?_ s hs
        intro s2 hs2
        rcases List.mem_append.mp hs2 with hs2 | hs2
        · exact hsec s2 hs2
        · rcases List.mem_singleton.mp hs2 with rfl
          exact create_summary_length_le _ 120
      · intro hs
        exact ih _ _ _ _ hsec s hs

/-- Summary bound for `_group_beats_into_sections`. -/
theorem group_sections_summary_le (beats : List Beat) :
    ∀ s ∈ group_beats_into_sections beats, s.summary.length ≤ 123 := by
  unfold group_beats_into_sections
  split
  · simp
  · exact groupLoop_summary_le _ _ _ _ _ _ (by simp)

/-- `generate` on a non-empty segment list: the `all_beats` field is the
result of the `_generate_beats` dispatch from a fresh extractor state. -/
theorem generate_all_beats_eq (segments : List TranscriptSegment)
    (video_id : Str) (mind maxd : ℚ) (now : Str) (h : segments ≠ []) :
    (generate segments video_id mind maxd now).all_beats =
      (generate_beats ⟨[], []⟩ segments mind maxd 3).1 := by
  unfold generate
  rw [if_neg h]

/-- `generate` on a non-empty segment list: the `sections` field groups
exactly the produced beats. -/
theorem generate_sections_eq (segments : List TranscriptSegment)
    (video_id : Str) (mind maxd : ℚ) (now : Str) (h : segments ≠ []) :
    (generate segments video_id mind maxd now).sections =
      group_beats_into_sections (generate_beats ⟨[], []⟩ segments mind maxd 3).1 := by
  unfold generate
  rw [if_neg h]

/-- `generate` on a non-empty segment list: the `all_variables` field is
the final extractor state of the `_generate_beats` dispatch. -/
theorem generate_all_variables_eq (segments : List TranscriptSegment)
    (video_id : Str) (mind maxd : ℚ) (now : Str) (h : segments ≠ []) :
    (generate segments video_id mind maxd now).all_variables =
      (generate_beats ⟨[], []⟩ segments mind maxd 3).2.vars := by
  unfold generate
  rw [if_neg h]

/-! ## Variable-accumulation invariants (`self.variables`) -/

/-- The inner extraction loop appends the same variables to the local
list and to `self.variables`. -/
theorem extractMatches_vars (category var_template : Str) (si : Nat) :
    ∀ (ms : List Str) (st : ExtState) (ab : Str) (vs : List Variable),
      ∃ δ : List Variable,
        (extractMatches category var_template si st ab vs ms).1.2 = vs ++ δ ∧
        (extractMatches category var_template si st ab vs ms).2.vars = st.vars ++ δ := by
  intro ms
  induction ms with
  | nil =>
    intro st ab vs
    exact ⟨[], by simp [extractMatches], by simp [extractMatches]⟩
  | cons ov ms ih =>
    intro st ab vs
    simp only [extractMatches]
    obtain ⟨δ, h1, h2⟩ := ih _ _ _
    refine ⟨(⟨(get_next_variable_name st.variable_counter var_template).1,
      ov, category, si⟩ : Variable) :: δ, ?_, ?_⟩
    · rw [h1]
      simp
    · rw [h2]
      simp

/-- The outer extraction loop over the rule table, likewise. -/
theorem extractPatterns_vars (text : Str) (si : Nat) :
    ∀ (ps : List VarPattern) (st : ExtState) (ab : Str) (vs : List Variable),
      ∃ δ : List Variable,
        (extractPatterns text si st ab vs ps).1.2 = vs ++ δ ∧
        (extractPatterns text si st ab vs ps).2.vars = st.vars ++ δ := by
  intro ps
  induction ps with
  | nil =>
    intro st ab vs
    exact ⟨[], by simp [extractPatterns], by simp [extractPatterns]⟩
  | cons p ps ih =>
    intro st ab vs
    simp only [extractPatterns]
    obtain ⟨δ1, h11, h12⟩ := extractMatches_vars p.category p.template si
      (findAllMatches p.lead p.re text) st ab vs
    obtain ⟨δ2, h21, h22⟩ := ih
      (extractMatches p.category p.template si st ab vs (findAllMatches p.lead p.re text)).2
      (extractMatches p.category p.template si st ab vs (findAllMatches p.lead p.re text)).1.1
      (extractMatches p.category p.template si st ab vs (findAllMatches p.lead p.re text)).1.2
    refine ⟨δ1 ++ δ2, ?_, ?_⟩
    · rw [h21, h11, List.append_assoc]
    · rw [h22, h12, List.append_assoc]

/-- `_extract_variables` appends exactly the variables it returns to
`self.variables`. -/
theorem extract_variables_vars (st : ExtState) (text : Str) (si : Nat) :
    (extract_variables st text si).2.vars =
      st.vars ++ (extract_variables st text si).1.2 := by
  obtain ⟨δ, h1, h2⟩ := extractPatterns_vars text si VARIABLE_PATTERNS st text []
  unfold extract_variables
  rw [h2, h1]
  simp

/-- The greedy loop appends exactly the produced beats' variables, in
beat order, to `self.variables`. -/
theorem genLoop_vars (amin amax : ℚ) (rest : List TranscriptSegment) :
    ∀ (st : ExtState) (bid : Nat) (cs : ℚ) (texts : List Str) (ce : ℚ),
      (genLoop amin amax st bid cs texts ce rest).2.vars =
        st.vars ++
          (((genLoop amin amax st bid cs texts ce rest).1).map Beat.vars).flatten := by
  induction rest with
  | nil =>
    intro st bid cs texts ce
    by_cases ht : texts = []
    · subst ht
      simp [genLoop]
    · simp only [genLoop, if_pos ht]
      rw [extract_variables_vars]
      simp
  | cons seg rest ih =>
    intro st bid cs texts ce
    simp only [genLoop]
    split
    · rw [ih, extract_variables_vars]
      simp
    · exact ih _ _ _ _ _
  
/-- As `genLoop_vars`, for the forced-split loop. -/
theorem forceLoop_vars (bd : ℚ) (rest : List TranscriptSegment) :
    ∀ (st : ExtState) (bid : Nat) (cs : ℚ) (texts : List Str) (ce : ℚ),
      (forceLoop bd st bid cs texts ce rest).2.vars =
        st.vars ++
          (((forceLoop bd st bid cs texts ce rest).1).map Beat.vars).flatten := by
  induction rest with
  | nil =>
    intro st bid cs texts ce
    by_cases ht : texts = []
    · subst ht
      simp [forceLoop]
    · simp only [forceLoop, if_pos ht]
      rw [extract_variables_vars]
      simp
  | cons seg rest ih =>
    intro st bid cs texts ce
    simp only [forceLoop]
    split
    · rw [ih, extract_variables_vars]
      simp
    · exact ih _ _ _ _ _

/-- `self.variables` after the greedy-only pass. -/
theorem generate_beats_normal_vars (st : ExtState)
    (segments : List TranscriptSegment) (mind maxd : ℚ) (mb : Nat) :
    (generate_beats_normal st segments mind maxd mb).2.vars =
      st.vars ++
        (((generate_beats_normal st segments mind maxd mb).1).map Beat.vars).flatten := by
  cases segments with
  | nil => simp [generate_beats_normal]
  | cons s0 rest =>
    simp only [generate_beats_normal]
    exact genLoop_vars _ _ _ _ _ _ _ _

/-- `self.variables` after a forced split. -/
theorem force_split_vars (st : ExtState) (segments : List TranscriptSegment)
    (tb : Nat) :
    (force_split_into_beats st segments tb).2.vars =
      st.vars ++
        (((force_split_into_beats st segments tb).1).map Beat.vars).flatten := by
  cases segments with
  | nil => simp [force_split_into_beats]
  | cons s0 rest =>
    simp only [force_split_into_beats]
    exact forceLoop_vars _ _ _ _ _ _ _

/-- `self.variables` after the `_generate_beats` dispatch: the returned
beats' variables, *prefixed by the variables of the discarded greedy
pass* whenever the minimum-count fallback was taken (the fallback re-runs
extraction without resetting `self`). -/
theorem generate_beats_vars (st : ExtState)
    (segments : List TranscriptSegment) (mind maxd : ℚ) (mb : Nat) :
    (generate_beats st segments mind maxd mb).2.vars =
      st.vars ++
      (if (generate_beats_normal st segments mind maxd mb).1.length < mb ∧
          mb ≤ segments.length
        then (((generate_beats_normal st segments mind maxd mb).1).map Beat.vars).flatten
        else []) ++
      (((generate_beats st segments mind maxd mb).1).map Beat.vars).flatten := by
  cases segments with
  | nil =>
    simp [generate_beats, generate_beats_normal, ite_self]
  | cons s0 rest =>
    simp only [generate_beats]
    split
    · rw [force_split_vars, generate_beats_normal_vars]
    · rw [generate_beats_normal_vars]
      simp

/-! ## Section/beat flatten invariants -/

/-- Loop invariant of `_group_beats_into_sections`: concatenating the
emitted sections' beats reproduces the already-emitted sections' beats,
then the current run, then the remaining beats. -/
theorem groupLoop_beats_flatten (allLen : Nat) (rest : List Beat) :
    ∀ (i : Nat) (cur : List Beat) (curType : SectionType)
      (sections : List OutlineSection),
      (((groupLoop allLen i rest cur curType sections).map OutlineSection.beats).flatten =
        ((sections.map OutlineSection.beats).flatten ++ cur) ++ rest) := by
  induction rest with
  | nil =>
    intro i cur curType sections
    simp only [groupLoop]
    split
    · simp [create_section_from_beats]
    · rename_i hcur
      have hc : cur = [] := by
        by_contra hx
        exact hcur hx
      subst hc
      simp
  | cons beat rest ih =>
    intro i cur curType sections
    simp only [groupLoop]
    split
    · split
      · rw [ih]
        simp [create_section_from_beats]
      · rw [ih]
        simp
    · split
      · rw [ih]
        simp [create_section_from_beats]
      · rw [ih]
        simp

/-- Concatenating the grouped sections' beats reproduces the beat list. -/
theorem group_beats_flatten (beats : List Beat) :
    (((group_beats_into_sections beats).map OutlineSection.beats).flatten = beats) := by
  unfold group_beats_into_sections
  split
  · rename_i h
    simp [h]
  · rw [groupLoop_beats_flatten]
    simp

/-! ## Variable-name uniqueness (`_get_next_variable_name`) -/

/-- The distinct placeholder templates occurring in
`VARIABLE_PATTERNS` (the fixed table; `{WHO}` appears in two rules but is
a single template). -/
def PLACEHOLDER_TEMPLATES : List Str :=
  ["{NUMBER}".toList, "{YEAR}".toList, "{WHO}".toList, "{BRAND}".toList,
   "{PRODUCT}".toList, "{PLACE}".toList, "{STEP}".toList]

/-- The name `_get_next_variable_name` gives the `k`-th draw of a
template: the bare template for `k = 1`, `template_k` afterwards. -/
def varNameOf (t : Str) (k : Nat) : Str :=
  if k = 1 then t else t ++ '_' :: natDecimal k

/-- The sequence of names produced by one run of successive
`_get_next_variable_name` calls (one generation run), starting from the
given counter state. -/
def runNamesAux : List (Str × Nat) → List Str → List Str
  | _, [] => []
  | counter, t :: ts =>
    let r := get_next_variable_name counter t
    r.1 :: runNamesAux r.2 ts

/-- The names of one generation run over the draws `draws` (an empty
counter, as `generate` resets `self.variable_counter`). -/
def run_variable_names (draws : List Str) : List Str := runNamesAux [] draws

theorem dictGet_cons (kv : Str × Nat) (d : List (Str × Nat)) (k' : Str) :
    dictGet (kv :: d) k' = if kv.1 = k' then some kv.2 else dictGet d k' := by
  unfold dictGet
  by_cases h : kv.1 = k'
  · rw [List.find?_cons_of_pos _ (by simpa using h), if_pos h]
  · rw [List.find?_cons_of_neg _ (by simpa using h), if_neg h]

theorem dictGet_dictSet_self (d : List (Str × Nat)) (k : Str) (v : Nat) :
    dictGet (dictSet d k v) k = some v := by
  induction d with
  | nil => simp [dictSet, dictGet_cons]
  | cons kv d ih =>
    by_cases h : kv.1 = k
    · simp [dictSet, h, dictGet_cons]
    · simp [dictSet, if_neg h, dictGet_cons, h, ih]

theorem dictGet_dictSet_ne (d : List (Str × Nat)) (k k' : Str) (v : Nat)
    (h : k' ≠ k) : dictGet (dictSet d k v) k' = dictGet d k' := by
  have h2 : ¬(k = k') := fun hx => h hx.symm
  induction d with
  | nil => simp [dictSet, dictGet_cons, h2]
  | cons kv d ih =>
    by_cases hk : kv.1 = k
    · have hkk' : ¬(kv.1 = k') := by rw [hk]; exact h2
      simp [dictSet, hk, dictGet_cons, h2, hkk']
    · simp [dictSet, if_neg hk, dictGet_cons, ih]

theorem digChar_ne_underscore (n : Nat) : digChar n ≠ '_' := by
  unfold digChar
  split <;> decide

theorem natDecimalAux_no_underscore :
    ∀ (fuel n : Nat), '_' ∉ natDecimalAux fuel n := by
  intro fuel
  induction fuel with
  | zero => simp [natDecimalAux]
  | succ fuel ih =>
    intro n
    unfold natDecimalAux
    split
    · simp only [List.mem_singleton]
      exact fun h => digChar_ne_underscore n h.symm
    · intro hmem
      rcases List.mem_append.mp hmem with hmem | hmem
      · exact ih _ hmem
      · rcases List.mem_singleton.mp hmem with h
        exact digChar_ne_underscore _ h.symm

theorem natDecimal_no_underscore (n : Nat) : '_' ∉ natDecimal n :=
  natDecimalAux_no_underscore (n + 1) n

/-- Value of a digit character produced by `digChar`. -/
theorem digChar_toNat (n : Nat) (h : n < 10) : (digChar n).toNat - 48 = n := by
  interval_cases n <;> decide

/-- Decimal re-interpretation of a digit string. -/
def decVal (s : Str) : Nat := s.foldl (fun a c => a * 10 + (c.toNat - 48)) 0

theorem decVal_natDecimalAux :
    ∀ (fuel n : Nat), n < fuel → decVal (natDecimalAux fuel n) = n := by
  intro fuel
  induction fuel with
  | zero =>
    intro n hn
    omega
  | succ fuel ih =>
    intro n hn
    unfold natDecimalAux
    split
    · rename_i h10
      simp only [decVal, List.foldl_cons, List.foldl_nil, Nat.zero_mul, Nat.zero_add]
      exact digChar_toNat n h10
    · rename_i h10
      have hdiv : n / 10 < fuel := by omega
      have hih := ih (n / 10) hdiv
      simp only [decVal, List.foldl_append, List.foldl_cons, List.foldl_nil]
      simp only [decVal] at hih
      rw [hih]
      have hd := digChar_toNat (n % 10) (by omega)
      omega

theorem natDecimal_inj {m n : Nat} (h : natDecimal m = natDecimal n) : m = n := by
  have hm := decVal_natDecimalAux (m + 1) m (by omega)
  have hn := decVal_natDecimalAux (n + 1) n (by omega)
  unfold natDecimal at h
  rw [h] at hm
  omega

theorem append_underscore_inj :
    ∀ (xs ys zs ws : Str), '_' ∉ xs → '_' ∉ ys →
      xs ++ '_' :: zs = ys ++ '_' :: ws → xs = ys ∧ zs = ws := by
  intro xs
  induction xs with
  | nil =>
    intro ys zs ws _ hy h
    cases ys with
    | nil => simpa using h
    | cons y ys =>
      simp only [List.nil_append, List.cons_append, List.cons.injEq] at h
      exact absurd (h.1 ▸ List.mem_cons_self y ys) (h.1 ▸ hy)
  | cons x xs ih =>
    intro ys zs ws hx hy h
    cases ys with
    | nil =>
      simp only [List.cons_append, List.nil_append, List.cons.injEq] at h
      exact absurd (h.1 ▸ List.mem_cons_self x xs) (h.1 ▸ hx)
    | cons y ys =>
      simp only [List.cons_append, List.cons.injEq] at h
      obtain ⟨hxy, hrest⟩ := h
      have hx' : '_' ∉ xs := fun hm => hx (List.mem_cons_of_mem x hm)
      have hy' : '_' ∉ ys := fun hm => hy (List.mem_cons_of_mem y hm)
      obtain ⟨h1, h2⟩ := ih ys zs ws hx' hy' hrest
      exact ⟨by rw [hxy, h1], h2⟩

theorem varNameOf_inj (t1 t2 : Str) (k1 k2 : Nat)
    (h1 : '_' ∉ t1) (h2 : '_' ∉ t2) (_hk1 : 1 ≤ k1) (_hk2 : 1 ≤ k2)
    (h : varNameOf t1 k1 = varNameOf t2 k2) : t1 = t2 ∧ k1 = k2 := by
  unfold varNameOf at h
  by_cases e1 : k1 = 1 <;> by_cases e2 : k2 = 1
  · rw [if_pos e1, if_pos e2] at h
    exact ⟨h, e1.trans e2.symm⟩
  · rw [if_pos e1, if_neg e2] at h
    exact absurd (h ▸ List.mem_append_right t2 (List.mem_cons_self '_' _)) (h ▸ h1)
  · rw [if_neg e1, if_pos e2] at h
    exact absurd (h ▸ List.mem_append_right t1 (List.mem_cons_self '_' _)) h2
  · rw [if_neg e1, if_neg e2] at h
    obtain ⟨ht, hd⟩ := append_underscore_inj t1 t2 (natDecimal k1) (natDecimal k2) h1 h2 h
    exact ⟨ht, natDecimal_inj hd⟩

theorem runNamesAux_length (draws : List Str) :
    ∀ counter, (runNamesAux counter draws).length = draws.length := by
  induction draws with
  | nil => intro counter; rfl
  | cons t ts ih =>
    intro counter
    simp only [runNamesAux, List.length_cons, ih]

/-- Position-wise characterisation of a run's names: the `i`-th name is
`varNameOf t k` where `t` is the `i`-th draw and `k` its running
occurrence count (offset by the initial counter value for `t`). -/
theorem runNamesAux_getD (draws : List Str) :
    ∀ (counter : List (Str × Nat)) (i : Nat), i < draws.length →
      (runNamesAux counter draws).getD i [] =
        varNameOf (draws.getD i [])
          (((dictGet counter (draws.getD i [])).getD 0) +
            ((draws.take (i + 1)).count (draws.getD i []))) := by
  induction draws with
  | nil =>
    intro counter i hi
    simp at hi
  | cons t ts ih =>
    intro counter i hi
    cases i with
    | zero =>
      have hc : ((t :: ts).take (0 + 1)).count ((t :: ts).getD 0 []) = 1 := by
        simp
      rw [hc]
      simp only [runNamesAux, List.getD_cons_zero]
      rfl
    | succ i =>
      have hi' : i < ts.length := by simpa using hi
      simp only [runNamesAux, List.getD_cons_succ]
      rw [ih ((get_next_variable_name counter t).2) i hi']
      have hset : (get_next_variable_name counter t).2 =
          dictSet counter t (((dictGet counter t).getD 0) + 1) := rfl
      have htake : (t :: ts).take (i + 1 + 1) = t :: ts.take (i + 1) := rfl
      rw [hset, htake]
      by_cases hxt : ts.getD i [] = t
      · rw [hxt, dictGet_dictSet_self]
        rw [List.count_cons_self]
        simp only [Option.getD_some]
        congr 1
        omega
      · rw [dictGet_dictSet_ne counter t (ts.getD i []) _ hxt]
        rw [List.count_cons_of_ne hxt]

/-- The names of one generation run (empty initial counter). -/
theorem run_variable_names_getD (draws : List Str) (i : Nat)
    (hi : i < draws.length) :
    (run_variable_names draws).getD i [] =
      varNameOf (draws.getD i []) ((draws.take (i + 1)).count (draws.getD i [])) := by
  have h := runNamesAux_getD draws [] i hi
  simpa [run_variable_names, dictGet] using h

/-- The `i`-th draw occurs in the first `i + 1` draws. -/
theorem count_take_self (draws : List Str) (i : Nat) (hi : i < draws.length) :
    1 ≤ (draws.take (i + 1)).count (draws.getD i []) := by
  have hmem : draws.getD i [] ∈ draws.take (i + 1) := by
    rw [List.getD_eq_getElem?_getD, List.getElem?_eq_getElem hi]
    rw [List.take_succ, List.getElem?_eq_getElem hi]
    exact List.mem_append_right _ (by simp)
  simpa using List.count_pos_iff.mpr hmem

/-- Occurrence counts strictly increase along repeated draws of the same
template. -/
theorem count_take_lt (draws : List Str) (i j : Nat) (hij : i < j)
    (hj : j < draws.length) (heq : draws.getD i [] = draws.getD j []) :
    (draws.take (i + 1)).count (draws.getD i []) <
      (draws.take (j + 1)).count (draws.getD j []) := by
  rw [heq]
  have h1 : (draws.take (j + 1)).count (draws.getD j []) =
      (draws.take j).count (draws.getD j []) + 1 := by
    rw [List.take_succ, List.getElem?_eq_getElem hj, List.count_append]
    rw [List.getD_eq_getElem?_getD, List.getElem?_eq_getElem hj]
    simp
  have h2 : (draws.take (i + 1)).count (draws.getD j []) ≤
      (draws.take j).count (draws.getD j []) := by
    have hsub : List.Sublist (draws.take (i + 1)) (draws.take j) := by
      have : (draws.take j).take (i + 1) = draws.take (i + 1) := by
        rw [List.take_take]
        congr 1
        omega
      rw [← this]
      exact List.take_sublist _ _
    exact hsub.count_le _
  omega

/-- Every placeholder template of the fixed table is underscore-free. -/
theorem templates_no_underscore :
    ∀ t ∈ PLACEHOLDER_TEMPLATES, '_' ∉ t := by
  intro t ht
  fin_cases ht <;> decide

/-! ## Claim theorems -/

/-- C1: for every non-empty input segment list, the beat list returned by
the Beat Segmenter partitions the input time range — the first beat's
start is the first segment's start, the last beat's end is the last
segment's end, and each beat's end is the next beat's start — both for
`_generate_beats` (whichever of its two paths is taken) and for
`_force_split_into_beats` itself. -/
theorem c1_beats_partition_input_range (st : ExtState)
    (segments : List TranscriptSegment) (mind maxd : ℚ) (min_beats : Nat)
    (h : segments ≠ []) :
    beatsPartitionSegs (generate_beats st segments mind maxd min_beats).1 segments ∧
    beatsPartitionSegs (force_split_into_beats st segments min_beats).1 segments := by
  obtain ⟨s0, rest, rfl⟩ := List.exists_cons_of_ne_nil h
  constructor
  · simp only [generate_beats]
    split
    · simp only [force_split_into_beats]
      exact beatChainP_partitionSegs _ _ _ _
        (forceLoop_partition _ _ _ _ _ _ _ (Or.inr (by simp)))
    · simp only [generate_beats_normal]
      exact beatChainP_partitionSegs _ _ _ _
        (genLoop_partition _ _ _ _ _ _ _ _ (Or.inr (by simp)))
  · simp only [force_split_into_beats]
    exact beatChainP_partitionSegs _ _ _ _
      (forceLoop_partition _ _ _ _ _ _ _ (Or.inr (by simp)))

/-- C1 witness: the partition property evaluated on a concrete two-segment
input (both the greedy result and the forced split). -/
theorem c1_witness :
    beatsPartitionSegs
      (generate_beats ⟨[], []⟩ [⟨1, 0, 1, "a".toList⟩, ⟨2, 1, 2, "b".toList⟩] 15 30 3).1
      [⟨1, 0, 1, "a".toList⟩, ⟨2, 1, 2, "b".toList⟩] ∧
    beatsPartitionSegs
      (force_split_into_beats ⟨[], []⟩ [⟨1, 0, 1, "a".toList⟩, ⟨2, 1, 2, "b".toList⟩] 3).1
      [⟨1, 0, 1, "a".toList⟩, ⟨2, 1, 2, "b".toList⟩] :=
  c1_beats_partition_input_range ⟨[], []⟩
    [⟨1, 0, 1, "a".toList⟩, ⟨2, 1, 2, "b".toList⟩] 15 30 3 (by simp)

/-- C9: every beat emitted by the Beat Segmenter (both the greedy
`_generate_beats` dispatch and `_force_split_into_beats`) is built from a
non-empty consecutive run of input segments — its `original_text` is the
space-join of that run's texts, in input order — and consequently the
number of beats never exceeds the number of input segments. -/
theorem c9_beats_consume_segment_runs (st : ExtState)
    (segments : List TranscriptSegment) (mind maxd : ℚ) (min_beats : Nat) :
    beatsGroupedP [] (segments.map TranscriptSegment.text)
      (generate_beats st segments mind maxd min_beats).1 ∧
    (generate_beats st segments mind maxd min_beats).1.length ≤ segments.length ∧
    beatsGroupedP [] (segments.map TranscriptSegment.text)
      (force_split_into_beats st segments min_beats).1 ∧
    (force_split_into_beats st segments min_beats).1.length ≤ segments.length := by
  have hg : beatsGroupedP [] (segments.map TranscriptSegment.text)
      (generate_beats st segments mind maxd min_beats).1 := by
    cases segments with
    | nil => exact ⟨[], by simp, by simp, by simp [generate_beats]⟩
    | cons s0 rest =>
      simp only [generate_beats]
      split
      · simp only [force_split_into_beats]
        exact forceLoop_groups _ _ _ _ _ _ _
      · simp only [generate_beats_normal]
        exact genLoop_groups _ _ _ _ _ _ _ _
  have hf : beatsGroupedP [] (segments.map TranscriptSegment.text)
      (force_split_into_beats st segments min_beats).1 := by
    cases segments with
    | nil => exact ⟨[], by simp, by simp, by simp [force_split_into_beats]⟩
    | cons s0 rest =>
      simp only [force_split_into_beats]
      exact forceLoop_groups _ _ _ _ _ _ _
  refine ⟨hg, ?_, hf, ?_⟩
  · simpa using beats_le_of_grouped hg
  · simpa using beats_le_of_grouped hf

/-- C10: `_create_summary` returns the stripped text unchanged whenever
its length is at most `max_length`, and otherwise a string of length at
most `max_length + 3` ending in `"..."`; consequently every beat summary
(`max_length` 80) has at most 83 characters and every section summary
(`max_length` 120) has at most 123 characters in any generated outline. -/
theorem c10_create_summary_spec (text : Str) (max_length : Nat)
    (_hml : 1 ≤ max_length) :
    ((stripStr text).length ≤ max_length →
      create_summary text max_length = stripStr text) ∧
    (max_length < (stripStr text).length →
      (create_summary text max_length).length ≤ max_length + 3 ∧
      List.IsSuffix "...".toList (create_summary text max_length)) ∧
    (∀ (segments : List TranscriptSegment) (video_id : Str) (mind maxd : ℚ)
        (now : Str),
      (∀ b ∈ (generate segments video_id mind maxd now).all_beats,
        b.summary.length ≤ 83) ∧
      (∀ s ∈ (generate segments video_id mind maxd now).sections,
        s.summary.length ≤ 123)) := by
  refine ⟨?_, ?_, ?_⟩
  · intro h
    simp only [create_summary]
    rw [if_pos h]
  · intro h
    refine ⟨create_summary_length_le text max_length, ?_⟩
    simp only [create_summary]
    rw [if_neg (by omega)]
    exact ⟨rsplitHead ((stripStr text).take max_length), rfl⟩
  · intro segments video_id mind maxd now
    by_cases h : segments = []
    · subst h
      constructor
      · intro b hb
        simp [generate] at hb
      · intro s hs
        simp [generate] at hs
    · constructor
      · intro b hb
        rw [generate_all_beats_eq segments video_id mind maxd now h] at hb
        exact generate_beats_summary_le _ _ _ _ _ b hb
      · intro s hs
        rw [generate_sections_eq segments video_id mind maxd now h] at hs
        exact group_sections_summary_le _ s hs

/-- C10 witness: the truncation behaviour evaluated on concrete inputs
(`max_length = 5`; one short text returned stripped, one long text
truncated within the bound). -/
theorem c10_witness :
    create_summary "  ab  ".toList 5 = "ab".toList ∧
    (create_summary "aaa bbb".toList 5).length ≤ 8 :=
  ⟨(c10_create_summary_spec "  ab  ".toList 5 (by omega)).1 (by decide),
   ((c10_create_summary_spec "aaa bbb".toList 5 (by omega)).2.1 (by decide)).1⟩

set_option maxRecDepth 8000 in
/-- C5 counterexample: flattening the generated beats' variables does
*not* always reproduce `all_variables`.  On three segments spanning 3s
whose first text is `"100万円"`, the greedy pass produces one beat (whose
extraction records a `{NUMBER}` variable on `self.variables`), the
minimum-count fallback then discards that beat and re-extracts — so
`all_variables` contains both the discarded `{NUMBER}` and the kept
`{NUMBER}_2`, while the beats only carry `{NUMBER}_2`. -/
theorem c5_counterexample :
    (((generate [⟨1, 0, 2, "100万円".toList⟩, ⟨2, 2, 5/2, "b".toList⟩,
          ⟨3, 5/2, 3, "c".toList⟩] "v".toList 15 30 "t".toList).all_beats.map
        Beat.vars).flatten) ≠
      (generate [⟨1, 0, 2, "100万円".toList⟩, ⟨2, 2, 5/2, "b".toList⟩,
          ⟨3, 5/2, 3, "c".toList⟩] "v".toList 15 30 "t".toList).all_variables := by
  with_unfolding_all exact of_decide_eq_true rfl

/-- C5 (amended): concatenating `sections[i].beats` in order always
reproduces `all_beats` exactly; and `all_variables` equals the
concatenation of the beats' variables in beat order *prefixed by the
variables of the discarded greedy pass* whenever the minimum-count
fallback was taken — in particular the claimed equality holds whenever
the fallback is not taken. -/
theorem c5_sections_flatten_and_variables (segments : List TranscriptSegment)
    (video_id : Str) (mind maxd : ℚ) (now : Str) :
    ((((generate segments video_id mind maxd now).sections.map
        OutlineSection.beats).flatten =
      (generate segments video_id mind maxd now).all_beats) ∧
    ((generate segments video_id mind maxd now).all_variables =
      (if (generate_beats_normal ⟨[], []⟩ segments mind maxd 3).1.length < 3 ∧
          3 ≤ segments.length
        then (((generate_beats_normal ⟨[], []⟩ segments mind maxd 3).1).map
            Beat.vars).flatten
        else []) ++
      (((generate segments video_id mind maxd now).all_beats.map
          Beat.vars).flatten)) ∧
    (¬((generate_beats_normal ⟨[], []⟩ segments mind maxd 3).1.length < 3 ∧
        3 ≤ segments.length) →
      (((generate segments video_id mind maxd now).all_beats.map
          Beat.vars).flatten =
        (generate segments video_id mind maxd now).all_variables))) := by
  have hmain : (generate segments video_id mind maxd now).all_variables =
      (if (generate_beats_normal ⟨[], []⟩ segments mind maxd 3).1.length < 3 ∧
          3 ≤ segments.length
        then (((generate_beats_normal ⟨[], []⟩ segments mind maxd 3).1).map
            Beat.vars).flatten
        else []) ++
      (((generate segments video_id mind maxd now).all_beats.map
          Beat.vars).flatten) := by
    by_cases h : segments = []
    · subst h
      simp [generate, generate_beats_normal]
    · rw [generate_all_variables_eq _ _ _ _ _ h, generate_all_beats_eq _ _ _ _ _ h]
      have hv := generate_beats_vars ⟨[], []⟩ segments mind maxd 3
      simpa using hv
  refine ⟨?_, hmain, ?_⟩
  · by_cases h : segments = []
    · subst h
      simp [generate]
    · rw [generate_sections_eq _ _ _ _ _ h, generate_all_beats_eq _ _ _ _ _ h]
      exact group_beats_flatten _
  · intro hnf
    rw [hmain, if_neg hnf]
    simp

/-- C5 witness: on a single-segment input the fallback is not taken, the
sections' beats flatten to `all_beats`, and the beats' variables flatten
to `all_variables`. -/
theorem c5_witness :
    ((((generate [⟨1, 0, 1, "b".toList⟩] "v".toList 15 30 "t".toList).sections.map
        OutlineSection.beats).flatten =
      (generate [⟨1, 0, 1, "b".toList⟩] "v".toList 15 30 "t".toList).all_beats) ∧
    (((generate [⟨1, 0, 1, "b".toList⟩] "v".toList 15 30 "t".toList).all_beats.map
        Beat.vars).flatten =
      (generate [⟨1, 0, 1, "b".toList⟩] "v".toList 15 30 "t".toList).all_variables)) :=
  ⟨(c5_sections_flatten_and_variables [⟨1, 0, 1, "b".toList⟩] "v".toList 15 30 "t".toList).1,
   (c5_sections_flatten_and_variables [⟨1, 0, 1, "b".toList⟩] "v".toList 15 30 "t".toList).2.2
     (by simp)⟩

/-- C4: within one generation run (one sequence of
`_get_next_variable_name` draws from an empty counter over the fixed
placeholder-template table), no two draws receive the same name; the
`i`-th draw of template `t` is named `varNameOf t k` where `k` is its
occurrence count so far — the bare template for the first occurrence,
`template_k` for the `k`-th. -/
theorem c4_variable_names_unique (draws : List Str)
    (h : ∀ t ∈ draws, t ∈ PLACEHOLDER_TEMPLATES) :
    List.Pairwise (· ≠ ·) (run_variable_names draws) ∧
    (∀ i, i < draws.length →
      (run_variable_names draws).getD i [] =
        varNameOf (draws.getD i [])
          ((draws.take (i + 1)).count (draws.getD i []))) := by
  refine ⟨?_, fun i hi => run_variable_names_getD draws i hi⟩
  rw [List.pairwise_iff_getElem]
  intro i j hi hj hij
  have hlen : (run_variable_names draws).length = draws.length :=
    runNamesAux_length draws []
  have hi' : i < draws.length := by omega
  have hj' : j < draws.length := by omega
  intro heq
  have hmi : draws.getD i [] ∈ draws := by
    rw [List.getD_eq_getElem draws [] hi']
    exact List.getElem_mem hi'
  have hmj : draws.getD j [] ∈ draws := by
    rw [List.getD_eq_getElem draws [] hj']
    exact List.getElem_mem hj'
  rw [← List.getD_eq_getElem (run_variable_names draws) [] hi,
    ← List.getD_eq_getElem (run_variable_names draws) [] hj,
    run_variable_names_getD draws i hi', run_variable_names_getD draws j hj'] at heq
  obtain ⟨ht, hk⟩ := varNameOf_inj _ _ _ _
    (templates_no_underscore _ (h _ hmi)) (templates_no_underscore _ (h _ hmj))
    (count_take_self draws i hi') (count_take_self draws j hj') heq
  have hlt := count_take_lt draws i j hij hj' ht
  omega

/-- C4 witness: the concrete run drawing `{NUMBER}`, `{WHO}`, `{NUMBER}`
yields pairwise-distinct names whose third name is `{NUMBER}_2`. -/
theorem c4_witness :
    List.Pairwise (· ≠ ·)
      (run_variable_names
        ["{NUMBER}".toList, "{WHO}".toList, "{NUMBER}".toList]) ∧
    (run_variable_names
        ["{NUMBER}".toList, "{WHO}".toList, "{NUMBER}".toList]).getD 2 [] =
      "{NUMBER}_2".toList :=
  ⟨(c4_variable_names_unique
      ["{NUMBER}".toList, "{WHO}".toList, "{NUMBER}".toList] (by decide)).1,
   by
    have h := (c4_variable_names_unique
      ["{NUMBER}".toList, "{WHO}".toList, "{NUMBER}".toList] (by decide)).2 2
      (by decide)
    rw [h]
    decide⟩

/-- C8: `TranscriptSegment.to_srt_entry` renders a segment as its integer
index line, an `HH:MM:SS,mmm --> HH:MM:SS,mmm` timing line (comma decimal
separator, three-digit milliseconds) and the segment text; in particular
the segment `{id: 1, start: 65.5, end: 70.25, text: "Hello world"}` is
rendered exactly as `"1\n00:01:05,500 --> 00:01:10,250\nHello world\n"`. -/
theorem c8_to_srt_entry_format :
    (∀ seg : TranscriptSegment,
      to_srt_entry seg =
        intRepr seg.id ++ '\n' :: format_time seg.start
          ++ ' ' :: '-' :: '-' :: '>' :: ' ' :: format_time seg.stop
          ++ '\n' :: seg.text ++ ['\n']) ∧
    to_srt_entry ⟨1, 65.5, 70.25, "Hello world".toList⟩ =
      "1\n00:01:05,500 --> 00:01:10,250\nHello world\n".toList :=
  ⟨fun _ => rfl, by with_unfolding_all exact rfl⟩

/-- C6: `OutlineGenerator.generate` on an empty segment list returns (and
does not raise) an `Outline` with empty `sections`, `all_beats` and
`all_variables` and a metadata dict consisting of an explicit `"error"`
entry. -/
theorem c6_generate_empty_segments (video_id : Str) (mind maxd : ℚ) (now : Str) :
    (generate [] video_id mind maxd now).sections = [] ∧
    (generate [] video_id mind maxd now).all_beats = [] ∧
    (generate [] video_id mind maxd now).all_variables = [] ∧
    (generate [] video_id mind maxd now).metadata =
      [("error".toList, MetaVal.s "No segments provided".toList)] :=
  ⟨rfl, rfl, rfl, rfl⟩

/-- C7 counterexample: `generate` is *not* deterministic in all fields
including the metadata map — the `"generated_at"` metadata entry records
the wall-clock value `datetime.now().isoformat()` (modelled as the `now`
argument), so two calls with identical segment/parameter inputs but
different clock readings give different Outlines. -/
theorem c7_counterexample :
    generate [⟨1, 0, 1, "b".toList⟩] "v".toList 15 30 "x".toList ≠
      generate [⟨1, 0, 1, "b".toList⟩] "v".toList 15 30 "y".toList := by
  intro h
  have h2 : (some (("generated_at".toList : Str), MetaVal.s "x".toList) :
      Option (Str × MetaVal)) = some ("generated_at".toList, MetaVal.s "y".toList) :=
    calc (some (("generated_at".toList : Str), MetaVal.s "x".toList) :
            Option (Str × MetaVal))
        = (generate [⟨1, 0, 1, "b".toList⟩] "v".toList 15 30 "x".toList).metadata.getLast? := rfl
      _ = (generate [⟨1, 0, 1, "b".toList⟩] "v".toList 15 30 "y".toList).metadata.getLast? := by rw [h]
      _ = some ("generated_at".toList, MetaVal.s "y".toList) := rfl
  exact absurd h2 (by decide)

/-- C7 (amended): `generate` is deterministic in every field except the
`"generated_at"` metadata entry: for identical segments, video id and
parameters, two calls agree on `video_id`, `sections`, `all_beats`,
`all_variables` and on every metadata entry other than
`"generated_at"` (which records the current clock). -/
theorem c7_generate_deterministic_except_timestamp
    (segments : List TranscriptSegment) (video_id : Str)
    (mind maxd : ℚ) (now1 now2 : Str) :
    (generate segments video_id mind maxd now1).video_id =
      (generate segments video_id mind maxd now2).video_id ∧
    (generate segments video_id mind maxd now1).sections =
      (generate segments video_id mind maxd now2).sections ∧
    (generate segments video_id mind maxd now1).all_beats =
      (generate segments video_id mind maxd now2).all_beats ∧
    (generate segments video_id mind maxd now1).all_variables =
      (generate segments video_id mind maxd now2).all_variables ∧
    (generate segments video_id mind maxd now1).metadata.filter
        (fun kv => !(kv.1 = "generated_at".toList : Bool)) =
      (generate segments video_id mind maxd now2).metadata.filter
        (fun kv => !(kv.1 = "generated_at".toList : Bool)) := by
  by_cases h : segments = []
  · subst h
    exact ⟨rfl, rfl, rfl, rfl, rfl⟩
  · unfold generate
    simp only [if_neg h]
    refine ⟨trivial, trivial, trivial, trivial, ?_⟩
    with_unfolding_all exact rfl

/-- C3 counterexample: abstracting the text `"100万円"` from a fresh
extractor state does *not* record a Variable with
`original_value == "100万円"`: the numeric-with-unit rule matches only
`"100万"` (the alternation tries the unit `円` at the position of `万`
and fails there, so the unit captured is `万`), leaving the trailing
`円` outside the match. -/
theorem c3_counterexample :
    ((extract_variables ⟨[], []⟩ "100万円".toList 0).1.2).map
        (fun v => v.original_value) ≠ ["100万円".toList] := by
  with_unfolding_all exact of_decide_eq_true rfl

/-- C3 (amended): abstracting `"100万円"` from a fresh extractor state,
with any section index, yields the abstracted text `"{NUMBER}円"` (which
contains the literal substring `"{NUMBER}"`) and exactly one Variable,
with `category == "number"` and `original_value == "100万"`. -/
theorem c3_extract_number_unit (section_index : Nat) :
    (extract_variables ⟨[], []⟩ "100万円".toList section_index).1.1 =
      "{NUMBER}円".toList ∧
    substrOccurs "{NUMBER}".toList
      (extract_variables ⟨[], []⟩ "100万円".toList section_index).1.1 = true ∧
    (extract_variables ⟨[], []⟩ "100万円".toList section_index).1.2 =
      [⟨"{NUMBER}".toList, "100万".toList, "number".toList, section_index⟩] :=
  ⟨rfl, rfl, rfl⟩

/-- C2 (code bug witness): with `min_beats = 3` and the three segments
`[0,2] "a"`, `[2,2.5] "b"`, `[2.5,3] "c"` (no sentence-terminal
punctuation), `_generate_beats` returns only two beats: the greedy pass
produces one beat, the forced equal-duration fallback is taken with
target duration `1.0`, but its greedy chunking lets the first chunk
overshoot (consuming the span `[0,2]`), leaving room for only one more
chunk. -/
theorem c2_failing_input_two_beats :
    ([⟨1, 0, 2, "a".toList⟩, ⟨2, 2, 5/2, "b".toList⟩,
        ⟨3, 5/2, 3, "c".toList⟩] : List TranscriptSegment).length = 3 ∧
    (generate_beats ⟨[], []⟩
      [⟨1, 0, 2, "a".toList⟩, ⟨2, 2, 5/2, "b".toList⟩, ⟨3, 5/2, 3, "c".toList⟩]
      15 30 3).1.length = 2 :=
  ⟨rfl, by with_unfolding_all exact rfl⟩

end Pdy
